import Mathlib

/-!
Verification of the codoc documentation registry and extractor.

The development shallowly embeds the Go sources of the codoc repository:

* `codoc.go` — the data model (`Package`, `Function`, `Struct`, `Field`),
  the process-wide registry (package-level maps `funcs`, `strucsts`, `pkgs`)
  and its operations `Register`, `GetPackage`, `GetFunction`, `GetStruct`.
* `codocgen/config.go` — the filter chain (`config`, `FilterFuncs`,
  `FilterStructs`, `WithDoc`, `filterFunc`, `filterStruct`).
* `codocgen` extractor — `FromPath`, `getInfo`, `getFunc` and the
  field-collection loop, over an abstracted view of the Go AST front end.

Go maps are embedded as association lists where insertion replaces the
previous binding of the key (`mapInsert` / `mapLookup`); the registry state
is passed explicitly instead of living in package-level variables, and the
`sync.RWMutex` is dropped: each registry operation is modelled as one atomic
state transition, which is exactly the atomicity the lock provides.
A separate reference-semantics model (`GoPackage`, `RefState`) captures the
fact that a Go map value inside a struct is a reference into a heap, which
matters for the copy-semantics claim about lookups.
-/

set_option maxHeartbeats 1000000

namespace Codoc

/-- Go type `Function` from codoc.go: name, doc, argument and result names. -/
structure Function where
  Name : String
  Doc : String
  Args : List String
  Results : List String
deriving DecidableEq

/-- Go type `Field` from codoc.go: field name, doc comment, inline comment. -/
structure Field where
  Name : String
  Doc : String
  Comment : String
deriving DecidableEq

/-- Go type `Struct` from codoc.go: name, doc, field map, method map. -/
structure Struct where
  Name : String
  Doc : String
  Fields : List (String × Field)
  Methods : List (String × Function)
deriving DecidableEq

/-- Go type `Package` from codoc.go: identifier, short name, doc, and the
function and struct maps. -/
structure Package where
  ID : String
  Name : String
  Doc : String
  Functions : List (String × Function)
  Structs : List (String × Struct)
deriving DecidableEq

/-- Lookup in a Go map modelled as an association list: the first binding
of the key wins (insertion places the fresh binding at the front). -/
def mapLookup {κ α : Type} [DecidableEq κ] (k : κ) : List (κ × α) → Option α
  | [] => none
  | (k2, v) :: m => if k = k2 then some v else mapLookup k m

/-- Removal of every binding of a key, used by `mapInsert` so that a Go map
update `m[k] = v` replaces the previous binding. -/
def eraseKey {κ α : Type} [DecidableEq κ] (k : κ) : List (κ × α) → List (κ × α)
  | [] => []
  | (k2, v) :: m => if k = k2 then eraseKey k m else (k2, v) :: eraseKey k m

/-- Go map update `m[k] = v`: the new binding replaces any previous one. -/
def mapInsert {κ α : Type} [DecidableEq κ] (k : κ) (v : α) (m : List (κ × α)) :
    List (κ × α) :=
  (k, v) :: eraseKey k m

/-- Registry state: the package-level variables `funcs`, `strucsts` and
`pkgs` of codoc.go, passed explicitly. -/
structure RegState where
  funcs : List (String × Function)
  strucsts : List (String × Struct)
  pkgs : List (String × Package)
deriving DecidableEq

/-- The initial registry state: all three maps empty. -/
def emptyState : RegState := ⟨[], [], []⟩

/-- The effective identifier computed at the top of `Register`
(codoc.go lines 59-62): a package whose short name is "main" is stored
under the fixed identifier "main", every other package under its own ID. -/
def effectiveID (pkg : Package) : String :=
  if pkg.Name = "main" then "main" else pkg.ID

/-- One of the two registration loops of `Register` (codoc.go lines 65-70):
every value of the given map is inserted into the flattened map under
the key `pfx ++ name of the value`, where `nm` reads the Name field.
Instantiated once for functions and once for structs. -/
def registerAll {α : Type} (nm : α → String) (pfx : String)
    (l : List (String × α)) (m : List (String × α)) : List (String × α) :=
  l.foldl (fun m p => mapInsert (pfx ++ nm p.2) p.2 m) m

/-- Go `Register` (codoc.go lines 55-71): store the package under its
effective identifier and insert all of its functions and structs into the
flattened maps under the prefixed keys. -/
def Register (st : RegState) (pkg : Package) : RegState :=
  let id := effectiveID pkg
  let pfx := id ++ "."
  { pkgs := mapInsert id pkg st.pkgs
    funcs := registerAll (fun fn => fn.Name) pfx pkg.Functions st.funcs
    strucsts := registerAll (fun s => s.Name) pfx pkg.Structs st.strucsts }

/-- Go `GetPackage` (codoc.go lines 75-83): exact lookup in the package map. -/
def GetPackage (st : RegState) (id : String) : Option Package :=
  mapLookup id st.pkgs

/-- Go `GetStruct` (codoc.go lines 123-132): exact lookup in the flattened
struct map. -/
def GetStruct (st : RegState) (id : String) : Option Struct :=
  mapLookup id st.strucsts

/-- Split of a character list at its last dot, mirroring
`strings.LastIndex(id, ".")` followed by the two slicings in `GetFunction`.
The recursion prefers a split found in the tail, so the split happens at
the last occurrence of the dot. Since the dot is an ASCII byte and Go
strings are UTF-8, the byte-level split of the source coincides with this
character-level split. -/
def splitLastDotChars : List Char → Option (List Char × List Char)
  | [] => none
  | c :: cs =>
    match splitLastDotChars cs with
    | some (h, t) => some (c :: h, t)
    | none => if c = '.' then some ([], cs) else none

/-- String-level wrapper of `splitLastDotChars`: `none` when the identifier
contains no dot, otherwise the head before and the tail after the last dot. -/
def splitLastDot (s : String) : Option (String × String) :=
  match splitLastDotChars s.data with
  | none => none
  | some (h, t) => some (⟨h⟩, ⟨t⟩)

/-- Go `GetFunction` (codoc.go lines 88-119): first an exact lookup in the
flattened function map; on a miss, split the identifier at its last dot,
look the head up as a struct, and return the method named by the tail. -/
def GetFunction (st : RegState) (id : String) : Option Function :=
  match mapLookup id st.funcs with
  | some fn => some fn
  | none =>
    match splitLastDot id with
    | none => none
    | some (structID, methodname) =>
      match GetStruct st structID with
      | none => none
      | some s =>
        match mapLookup methodname s.Methods with
        | none => none
        | some fn => some fn

/-- The method of the test package in codoc_test.go. -/
def method1 : Function :=
  ⟨"Method1", "Method1 documentation", ["arg1"], ["result1"]⟩

/-- The function of the test package in codoc_test.go. -/
def testFunc : Function :=
  ⟨"TestFunc", "Test function documentation", ["arg1", "arg2"],
    ["result1", "result2"]⟩

/-- The struct of the test package in codoc_test.go. -/
def testStruct : Struct :=
  ⟨"TestStruct", "Test struct documentation",
    [("Field1", ⟨"Field1", "Field1 documentation", "Field1 comment"⟩)],
    [("Method1", method1)]⟩

/-- The test package registered in codoc_test.go. -/
def testPkg : Package :=
  ⟨"example.com/testpkg", "testpkg", "This is a test package",
    [("TestFunc", testFunc)], [("TestStruct", testStruct)]⟩

/-- The registry state after registering the test package into the empty
registry. -/
def exState : RegState := Register emptyState testPkg

/-! Filter chain, from codocgen/config.go. -/

/-- Go type `config` from codocgen/config.go: the ordered predicate
sequences for functions and structs. -/
structure config where
  funcFilter : List (Function → Bool)
  structFilter : List (Struct → Bool)

/-- The zero value of `config`: both predicate sequences empty. -/
def emptyConfig : config := ⟨[], []⟩

/-- Go type `Option` from codocgen/config.go, a function mutating a
config; named `GenOption` here because `Option` is taken by the Lean
prelude. An applied option is modelled as the state transformation it
performs on the config. -/
def GenOption : Type := config → config

/-- Go `FilterFuncs` (codocgen/config.go lines 17-21): append one function
predicate to the chain. -/
def FilterFuncs (f : Function → Bool) : GenOption :=
  fun c => { c with funcFilter := c.funcFilter ++ [f] }

/-- Go `FilterStructs` (codocgen/config.go lines 23-27): append one struct
predicate to the chain. -/
def FilterStructs (f : Struct → Bool) : GenOption :=
  fun c => { c with structFilter := c.structFilter ++ [f] }

/-- Go `WithDoc` (codocgen/config.go lines 43-53): append to each chain a
predicate accepting an entity whose Doc string is not the empty string.
The source compares against the empty string directly, without trimming. -/
def WithDoc : GenOption :=
  fun c =>
    { c with
      funcFilter := c.funcFilter ++ [fun fn => fn.Doc != ""]
      structFilter := c.structFilter ++ [fun st => st.Doc != ""] }

/-- The loop shared by `config.filterFunc` and `config.filterStruct`
(codocgen/config.go lines 55-71): run the predicates in order, returning
false at the first predicate that rejects, true when all accept. -/
def runFilters {α : Type} : List (α → Bool) → α → Bool
  | [], _ => true
  | f :: fs, x => if f x then runFilters fs x else false

/-- Go `config.filterFunc`: conjunction of the function predicate chain. -/
def config.filterFunc (c : config) (fn : Function) : Bool :=
  runFilters c.funcFilter fn

/-- Go `config.filterStruct`: conjunction of the struct predicate chain. -/
def config.filterStruct (c : config) (st : Struct) : Bool :=
  runFilters c.structFilter st

/-! Extractor, from codocgen (FromPath, getInfo, getFunc and the
field-collection loop), over an abstracted view of the Go AST front end:
`go/parser`, `go/doc` and `golang.org/x/tools/go/packages` are external,
so their outputs are inputs of the model. -/

/-- Go `unicode.IsSpace` restricted to Latin-1, the characters listed in
the Go runtime table: space, tab, newline, vertical tab, form feed,
carriage return, next line and no-break space. Code points above Latin-1
in the Unicode Zs category are omitted from the model. -/
def isSpaceGo (c : Char) : Bool :=
  c = ' ' || c = '\t' || c = '\n' || c = '\x0b' || c = '\x0c' || c = '\r' ||
    c = '\x85' || c = '\xa0'

/-- Go `strings.TrimSpace`: drop leading and trailing whitespace. -/
def trimSpace (s : String) : String :=
  ⟨List.reverse (List.dropWhile isSpaceGo
    (List.reverse (List.dropWhile isSpaceGo s.data)))⟩

/-- Abstracted result entry of `packages.Load` in `getInfo`: the package
identity resolved by the front end, with its load errors. -/
structure PkgInfo where
  ID : String
  Name : String
  errors : List String
deriving DecidableEq

/-- Abstracted documented function produced by `go/doc` and consumed by
`getFunc`: name, raw doc text, and the parameter and result name groups of
the declaration (one inner list per field group; empty strings stand for
anonymous names). -/
structure DocFunc where
  name : String
  doc : String
  params : List (List String)
  results : List (List String)
deriving DecidableEq

/-- Abstracted source struct field consumed by the field-collection loop of
`FromPath`: the declared names of the field group and the raw texts of the
leading doc comment and the trailing inline comment. -/
structure SrcField where
  names : List String
  docText : String
  commentText : String
deriving DecidableEq

/-- Abstracted documented type declaration produced by `go/doc`: name, raw
doc text, whether the declaration denotes a struct type, its associated
non-method functions, its methods, and its fields. -/
structure DocType where
  name : String
  doc : String
  isStruct : Bool
  funcs : List DocFunc
  methods : List DocFunc
  fields : List SrcField
deriving DecidableEq

/-- Abstracted `go/doc` view of one parsed package: the raw package doc,
the top-level documented functions and the documented type declarations. -/
structure DocPkg where
  doc : String
  funcs : List DocFunc
  types : List DocType
deriving DecidableEq

/-- Abstracted inputs of one `FromPath` call: the `packages.Load` result
consumed by `getInfo`, the error of `parser.ParseDir` when it fails, and
the parsed packages keyed by package name as produced by the parser and
`doc.New`. -/
structure ExtractInput where
  loadResult : List PkgInfo
  parseError : Option String
  parsed : List (String × DocPkg)
deriving DecidableEq

/-- Go `getInfo` (extractor lines 124-143): fail when the location loads
zero or several packages or the one package carries load errors. -/
def getInfo (infos : List PkgInfo) : Except String PkgInfo :=
  match infos with
  | [] => .error "no packages"
  | [info] =>
    if info.errors = [] then .ok info else .error "package contains errors"
  | _ :: _ :: _ => .error "multiple packages"

/-- The name-collection loops of Go `getFunc`: keep the non-empty names of
each field group, in order. -/
def collectNames (groups : List (List String)) : List String :=
  groups.foldl (fun acc grp => acc ++ grp.filter (fun n => n.length > 0)) []

/-- Go `getFunc` (extractor lines 145-176): build a `Function` with
trimmed doc and the non-empty parameter and result names. -/
def getFunc (fn : DocFunc) : Function :=
  { Name := fn.name
    Doc := trimSpace fn.doc
    Args := collectNames fn.params
    Results := collectNames fn.results }

/-- The inner loop of the field collection in `FromPath` (extractor lines
86-97), processing one field group: for every declared name, trim the doc
and the trailing comment and insert the field only when at least one of
the two is non-empty. The trimmed texts depend only on the field group, so
they are hoisted out of the per-name loop; the Name slot of the built
`Field` is left at its zero value, the empty string, exactly as the Go
composite literal does. -/
def collectFieldStep (field : SrcField) (fields : List (String × Field)) :
    List (String × Field) :=
  let doc := trimSpace field.docText
  let comment := trimSpace field.commentText
  field.names.foldl
    (fun fields name =>
      if doc.length > 0 || comment.length > 0 then
        mapInsert name ⟨"", doc, comment⟩ fields
      else fields)
    fields

/-- The field-collection loop of `FromPath` (extractor lines 85-97). -/
def collectFields (fieldList : List SrcField) : List (String × Field) :=
  fieldList.foldl (fun fields field => collectFieldStep field fields) []

/-- One step of the function-collection loops of `FromPath` (lines 54-60
and 70-75): build the function, test the chain, key by name. -/
def addFuncs (conf : config) (l : List DocFunc)
    (m : List (String × Function)) : List (String × Function) :=
  l.foldl
    (fun m fn0 =>
      let fn := getFunc fn0
      if conf.filterFunc fn then mapInsert fn.Name fn m else m)
    m

/-- The method-collection loop of `FromPath` (lines 77-83). -/
def addMethods (conf : config) (l : List DocFunc) :
    List (String × Function) :=
  l.foldl
    (fun m fn0 =>
      let fn := getFunc fn0
      if conf.filterFunc fn then mapInsert fn.Name fn m else m)
    []

/-- The `Struct` assembled for one documented type (lines 99-104). -/
def mkStruct (conf : config) (typ : DocType) : Struct :=
  { Name := typ.name
    Doc := trimSpace typ.doc
    Fields := collectFields typ.fields
    Methods := addMethods conf typ.methods }

/-- One iteration of the type-declaration loop of `FromPath` (lines
62-109): skip a non-struct declaration, merge the associated functions of
a struct declaration into the function map, and keep the assembled struct
when it passes the chain. -/
def addTypesStep (conf : config)
    (acc : List (String × Function) × List (String × Struct))
    (typ : DocType) :
    List (String × Function) × List (String × Struct) :=
  if typ.isStruct then
    let fs := addFuncs conf typ.funcs acc.1
    let cst := mkStruct conf typ
    if conf.filterStruct cst then (fs, mapInsert typ.name cst acc.2)
    else (fs, acc.2)
  else acc

/-- The type-declaration loop of `FromPath` (lines 62-109). -/
def addTypes (conf : config) (types : List DocType)
    (fs : List (String × Function)) :
    List (String × Function) × List (String × Struct) :=
  types.foldl (addTypesStep conf) (fs, [])

/-- The option-application loop at the top of `FromPath` (extractor lines
28-31): apply every option to the zero config. -/
def buildConfig (opts : List GenOption) : config :=
  opts.foldl (fun c o => o c) emptyConfig

/-- Go `FromPath` (extractor lines 27-118): build the config from the
options, resolve the package identity, check the parse result is exactly
one package, and assemble the `Package` from the documented declarations.
The Go expression `pkgs[info.Name]` dereferences a nil pointer when the
parsed map lacks the resolved name; the model returns an error there. -/
def FromPath (inp : ExtractInput) (opts : List GenOption) :
    Except String Package :=
  let conf := buildConfig opts
  match getInfo inp.loadResult with
  | .error e => .error e
  | .ok info =>
    match inp.parseError with
    | some e => .error ("parse package: " ++ e)
    | none =>
      if inp.parsed.length = 0 then .error "no packages"
      else if 1 < inp.parsed.length then .error "multiple packages"
      else
        match mapLookup info.Name inp.parsed with
        | none => .error "package not present in parse result"
        | some pkgdoc =>
          let funcs0 := addFuncs conf pkgdoc.funcs []
          let fs := addTypes conf pkgdoc.types funcs0
          .ok
            { ID := info.ID
              Name := info.Name
              Doc := trimSpace pkgdoc.doc
              Functions := fs.1
              Structs := fs.2 }

/-! Reference-semantics model of the registry, for the copy-semantics
claim. In Go a map value is a reference: assigning a struct that holds a
map copies the reference, not the contents. `GetPackage` returns a pointer
to a copy of the stored `Package` record, so the scalar fields are copies
but the `Functions` and `Structs` maps inside it are shared with the
registry. The model makes the references explicit as heap cell indices. -/

/-- A Go `Package` value as it exists at runtime: scalar fields by value,
map fields as references into the heap. -/
structure GoPackage where
  ID : String
  Name : String
  Doc : String
  FunctionsRef : Nat
  StructsRef : Nat
deriving DecidableEq

/-- Heap plus registry package map for the reference-semantics model.
Cells hold the contents of the function and struct maps of packages. -/
structure RefState where
  funcCells : List (Nat × List (String × Function))
  structCells : List (Nat × List (String × Struct))
  pkgs : List (String × GoPackage)
deriving DecidableEq

/-- Dereference the function map of a package through its heap cell. -/
def derefFuncs (st : RefState) (r : Nat) : List (String × Function) :=
  (mapLookup r st.funcCells).getD []

/-- Go `Register` restricted to the package map, in the
reference-semantics model: the `GoPackage` record is stored by value, its
map references included. -/
def RegisterRef (st : RefState) (pkg : GoPackage) : RefState :=
  let id := if pkg.Name = "main" then "main" else pkg.ID
  { st with pkgs := mapInsert id pkg st.pkgs }

/-- Go `GetPackage` in the reference-semantics model: the returned value
is a copy of the stored record, hence it carries the same map references
as the registry entry. -/
def GetPackageRef (st : RefState) (id : String) : Option GoPackage :=
  mapLookup id st.pkgs

/-- A caller-side Go map write `p.Functions[k] = fn` through a map
reference: the heap cell behind the reference is updated in place. -/
def storeFuncKey (st : RefState) (r : Nat) (k : String) (fn : Function) :
    RefState :=
  { st with
    funcCells := mapInsert r (mapInsert k fn (derefFuncs st r)) st.funcCells }

/-- Concrete function used by the copy-semantics scenario. -/
def fooFn : Function := ⟨"Foo", "Foo documentation", [], []⟩

/-- Concrete function inserted by the caller in the copy-semantics
scenario. -/
def barFn : Function := ⟨"Bar", "", [], []⟩

/-- Concrete runtime package whose function map lives in heap cell 0 and
whose struct map lives in heap cell 1. -/
def refPkg : GoPackage := ⟨"example.com/p", "p", "", 0, 1⟩

/-- Concrete reference-model state: the package registered, its function
map holding only `fooFn`. -/
def refSt : RefState :=
  RegisterRef ⟨[(0, [("Foo", fooFn)])], [(1, [])], []⟩ refPkg

/-- Absence of name collisions inside a package: the keys of the function
map and of the struct map are pairwise distinct. -/
def NoCollisions (P : Package) : Prop :=
  (P.Functions.map Prod.fst).Nodup ∧ (P.Structs.map Prod.fst).Nodup

/-- First registration of the stale-entry scenario: a package carrying one
function. -/
def pkgP1 : Package := ⟨"example.com/p", "p", "", [("Foo", fooFn)], []⟩

/-- Second registration of the stale-entry scenario: the same identifier,
no functions. -/
def pkgP2 : Package := ⟨"example.com/p", "p", "", [], []⟩

/-- A function whose doc string consists of a single space. -/
def wsFn : Function := ⟨"F", " ", [], []⟩

/-- The function of the main package in codoc_test.go. -/
def mainFunc : Function := ⟨"MainFunc", "Main function documentation", [], []⟩

/-- The main package registered in codoc_test.go: short name "main",
identifier "example.com/main". -/
def mainPkg : Package :=
  ⟨"example.com/main", "main", "This is the main package",
    [("MainFunc", mainFunc)], []⟩

/-- Concrete resolution result for the extractor scenario. -/
def exInfo : PkgInfo := ⟨"example.com/testpkg", "testpkg", []⟩

/-- Concrete documented struct declaration for the extractor scenario:
one documented field, one method, raw texts still untrimmed. -/
def exDocType : DocType :=
  ⟨"TestStruct", " Test struct documentation\n", true, [],
    [⟨"Method1", " Method1 documentation\n", [["arg1"]], [["result1"]]⟩],
    [⟨["Field1"], " Field1 documentation\n", "Field1 comment\n"⟩]⟩

/-- Concrete documented package for the extractor scenario. -/
def exDocPkg : DocPkg := ⟨" This is a test package\n", [], [exDocType]⟩

/-- Concrete extractor input resolving and parsing to exactly one
package. -/
def exInput : ExtractInput := ⟨[exInfo], none, [("testpkg", exDocPkg)]⟩

/-- The struct the extractor scenario produces. -/
def exOutStruct : Struct :=
  ⟨"TestStruct", "Test struct documentation",
    [("Field1", ⟨"", "Field1 documentation", "Field1 comment"⟩)],
    [("Method1", ⟨"Method1", "Method1 documentation", ["arg1"], ["result1"]⟩)]⟩

/-- The package the extractor scenario produces. -/
def exOutPkg : Package :=
  ⟨"example.com/testpkg", "testpkg", "This is a test package", [],
    [("TestStruct", exOutStruct)]⟩

/-- A documented field group used by witnesses of the field-collection
properties. -/
def exSrcField : SrcField := ⟨["Field1"], " Field1 documentation\n", ""⟩

/-! Helper lemmas about the map model. -/

theorem mapLookup_eraseKey {κ α : Type} [DecidableEq κ] (k k2 : κ)
    (m : List (κ × α)) :
    mapLookup k (eraseKey k2 m) = if k = k2 then none else mapLookup k m := by
  induction m with
  | nil => by_cases h : k = k2 <;> simp [eraseKey, mapLookup, h]
  | cons p m ih =>
    obtain ⟨k3, v⟩ := p
    simp only [eraseKey]
    by_cases h2 : k2 = k3
    · rw [if_pos h2, ih]
      by_cases h : k = k2
      · simp [h]
      · have h3 : k ≠ k3 := fun e => h (e.trans h2.symm)
        simp [h, mapLookup, h3]
    · rw [if_neg h2]
      simp only [mapLookup]
      by_cases h : k = k3
      · have h4 : k ≠ k2 := fun e => h2 (e.symm.trans h)
        simp [h, h4]
        exact fun e => h2 (Eq.symm e)
      · simp [h, ih]

theorem mapLookup_mapInsert {κ α : Type} [DecidableEq κ] (k k2 : κ) (v : α)
    (m : List (κ × α)) :
    mapLookup k (mapInsert k2 v m) =
      if k = k2 then some v else mapLookup k m := by
  by_cases h : k = k2 <;> simp [mapInsert, mapLookup, mapLookup_eraseKey, h]

theorem mem_of_mapLookup_eq_some {κ α : Type} [DecidableEq κ] {k : κ}
    {m : List (κ × α)} {v : α} (h : mapLookup k m = some v) : (k, v) ∈ m := by
  induction m with
  | nil => simp [mapLookup] at h
  | cons p m ih =>
    obtain ⟨k2, v2⟩ := p
    by_cases hk : k = k2
    · subst hk
      simp [mapLookup] at h
      subst h
      exact List.mem_cons_self _ _
    · simp [mapLookup, hk] at h
      exact List.mem_cons_of_mem _ (ih h)

theorem mem_of_mem_eraseKey {κ α : Type} [DecidableEq κ] {k : κ}
    {m : List (κ × α)} {p : κ × α} (h : p ∈ eraseKey k m) : p ∈ m := by
  induction m with
  | nil => simp [eraseKey] at h
  | cons q m ih =>
    obtain ⟨k2, v2⟩ := q
    by_cases hk : k = k2
    · rw [eraseKey, if_pos hk] at h
      exact List.mem_cons_of_mem _ (ih h)
    · rw [eraseKey, if_neg hk] at h
      rcases List.mem_cons.mp h with h | h
      · subst h
        exact List.mem_cons_self _ _
      · exact List.mem_cons_of_mem _ (ih h)

/-! Helper lemmas about strings. -/

theorem string_append_cancel_left {s a b : String} (h : s ++ a = s ++ b) :
    a = b := by
  obtain ⟨sd⟩ := s
  obtain ⟨ad⟩ := a
  obtain ⟨bd⟩ := b
  have h2 : sd ++ ad = sd ++ bd := congrArg String.data h
  exact congrArg String.mk (List.append_cancel_left h2)

theorem string_length_pos_iff (s : String) : 0 < s.length ↔ s ≠ "" := by
  obtain ⟨d⟩ := s
  constructor
  · intro h he
    rw [he] at h
    simp [String.length] at h
  · intro h
    cases d with
    | nil => exact absurd rfl h
    | cons c tl => simp [String.length]

/-! Helper lemmas about the registration loops. -/

theorem registerAll_cons {α : Type} (nm : α → String) (pfx : String)
    (p : String × α) (l : List (String × α)) (m : List (String × α)) :
    registerAll nm pfx (p :: l) m =
      registerAll nm pfx l (mapInsert (pfx ++ nm p.2) p.2 m) := rfl

theorem registerAll_frame {α : Type} (nm : α → String) (pfx : String)
    (l : List (String × α)) (m : List (String × α)) (k : String)
    (h : ∀ p ∈ l, k ≠ pfx ++ nm p.2) :
    mapLookup k (registerAll nm pfx l m) = mapLookup k m := by
  induction l generalizing m with
  | nil => rfl
  | cons p l ih =>
    have hp : k ≠ pfx ++ nm p.2 := h p (List.mem_cons_self _ _)
    rw [registerAll_cons, ih _ (fun q hq => h q (List.mem_cons_of_mem _ hq))]
    rw [mapLookup_mapInsert, if_neg hp]

theorem registerAll_lookup {α : Type} (nm : α → String) (pfx : String)
    (l : List (String × α)) (m : List (String × α)) (a : α)
    (hnodup : (l.map (fun p => nm p.2)).Nodup) (ha : a ∈ l.map Prod.snd) :
    mapLookup (pfx ++ nm a) (registerAll nm pfx l m) = some a := by
  induction l generalizing m with
  | nil => simp at ha
  | cons p l ih =>
    simp only [List.map_cons, List.nodup_cons] at hnodup
    obtain ⟨hni, hnd⟩ := hnodup
    simp only [List.map_cons] at ha
    rw [registerAll_cons]
    rcases List.mem_cons.mp ha with heq | hmem
    · rw [heq, registerAll_frame]
      · rw [mapLookup_mapInsert, if_pos rfl]
      · intro q hq hkey
        have hn : nm p.2 = nm q.2 := string_append_cancel_left hkey
        exact hni (hn ▸ List.mem_map_of_mem (fun p => nm p.2) hq)
    · exact ih _ hnd hmem

/-! Helper lemmas about the last-dot split. -/

theorem splitLastDotChars_eq_none (l : List Char) :
    splitLastDotChars l = none ↔ '.' ∉ l := by
  induction l with
  | nil => simp [splitLastDotChars]
  | cons c cs ih =>
    simp only [splitLastDotChars]
    cases h : splitLastDotChars cs with
    | some p =>
      have hmem : '.' ∈ cs := by
        by_contra hc
        rw [(ih.mpr hc)] at h
        exact Option.noConfusion h
      simp [List.mem_cons, hmem]
    | none =>
      by_cases hc : c = '.'
      · simp [hc]
      · rw [if_neg hc]
        simp only [List.mem_cons]
        constructor
        · intro _ hmem
          rcases hmem with he | hm
          · exact hc he.symm
          · exact (ih.mp h) hm
        · intro _
          exact trivial

theorem splitLastDotChars_eq_some (l : List Char) :
    ∀ h t, splitLastDotChars l = some (h, t) → l = h ++ '.' :: t ∧ '.' ∉ t := by
  induction l with
  | nil => intro h t hs; exact Option.noConfusion hs
  | cons c cs ih =>
    intro h t hs
    simp only [splitLastDotChars] at hs
    cases hrec : splitLastDotChars cs with
    | some p =>
      obtain ⟨h1, t1⟩ := p
      rw [hrec] at hs
      simp only [Option.some.injEq, Prod.mk.injEq] at hs
      obtain ⟨hh, ht⟩ := hs
      subst hh
      subst ht
      obtain ⟨hcs, hnt⟩ := ih h1 t1 hrec
      exact ⟨by rw [List.cons_append, ← hcs], hnt⟩
    | none =>
      rw [hrec] at hs
      by_cases hc : c = '.'
      · rw [if_pos hc] at hs
        simp only [Option.some.injEq, Prod.mk.injEq] at hs
        obtain ⟨hh, ht⟩ := hs
        subst hh
        subst ht
        exact ⟨by rw [hc, List.nil_append], (splitLastDotChars_eq_none cs).mp hrec⟩
      · rw [if_neg hc] at hs
        exact Option.noConfusion hs

theorem splitLastDot_eq_some (s h t : String)
    (hs : splitLastDot s = some (h, t)) :
    s.data = h.data ++ '.' :: t.data ∧ '.' ∉ t.data := by
  unfold splitLastDot at hs
  cases hrec : splitLastDotChars s.data with
  | none => rw [hrec] at hs; exact Option.noConfusion hs
  | some p =>
    obtain ⟨hl, tl⟩ := p
    rw [hrec] at hs
    simp only [Option.some.injEq, Prod.mk.injEq] at hs
    obtain ⟨hh, ht⟩ := hs
    obtain ⟨hcs, hnt⟩ := splitLastDotChars_eq_some s.data hl tl hrec
    subst hh
    subst ht
    exact ⟨hcs, hnt⟩

theorem splitLastDot_eq_none (s : String) :
    splitLastDot s = none ↔ '.' ∉ s.data := by
  unfold splitLastDot
  cases hrec : splitLastDotChars s.data with
  | none => simp [(splitLastDotChars_eq_none s.data).mp hrec]
  | some p =>
    obtain ⟨hl, tl⟩ := p
    have hmem : '.' ∈ s.data := by
      by_contra hc
      rw [(splitLastDotChars_eq_none s.data).mpr hc] at hrec
      exact Option.noConfusion hrec
    simp [hmem]

/-! Helper lemmas about the two-phase function lookup. -/

theorem getFunction_hit (st : RegState) (id : String) (fn : Function)
    (h : mapLookup id st.funcs = some fn) : GetFunction st id = some fn := by
  unfold GetFunction
  rw [h]

theorem getFunction_miss (st : RegState) (id : String)
    (h : mapLookup id st.funcs = none) :
    GetFunction st id = (splitLastDot id).bind
      (fun p => (GetStruct st p.1).bind (fun s => mapLookup p.2 s.Methods)) := by
  cases hs : splitLastDot id with
  | none => simp [GetFunction, h, hs]
  | some p =>
    obtain ⟨structID, methodname⟩ := p
    cases hst : GetStruct st structID with
    | none => simp [GetFunction, h, hs, hst]
    | some s =>
      cases hm : mapLookup methodname s.Methods with
      | none => simp [GetFunction, h, hs, hst, hm]
      | some fn => simp [GetFunction, h, hs, hst, hm]

/-! Helper lemma about the filter chain loop. -/

theorem runFilters_eq_true {α : Type} (fs : List (α → Bool)) (x : α) :
    runFilters fs x = true ↔ ∀ f ∈ fs, f x = true := by
  induction fs with
  | nil => simp [runFilters]
  | cons f fs ih =>
    by_cases hf : f x = true
    · simp [runFilters, hf, ih]
    · simp [runFilters, hf]

/-! Helper lemmas about the field-collection loop of the extractor. -/

theorem mapLookup_collectFieldStep (field : SrcField)
    (m : List (String × Field)) (n : String) :
    mapLookup n (collectFieldStep field m) =
      if (trimSpace field.docText ≠ "" ∨ trimSpace field.commentText ≠ "")
          ∧ n ∈ field.names
      then some ⟨"", trimSpace field.docText, trimSpace field.commentText⟩
      else mapLookup n m := by
  obtain ⟨nms, d, cm⟩ := field
  have key : ((trimSpace d).length > 0 || (trimSpace cm).length > 0) = true ↔
      (trimSpace d ≠ "" ∨ trimSpace cm ≠ "") := by
    simp [string_length_pos_iff]
  simp only [collectFieldStep]
  induction nms generalizing m with
  | nil => simp
  | cons nm2 rest ih =>
    rw [List.foldl_cons, ih]
    by_cases hP : trimSpace d ≠ "" ∨ trimSpace cm ≠ ""
    · have hb := key.mpr hP
      by_cases hr : n ∈ rest
      · simp [hb, hP, hr]
      · by_cases hn : n = nm2
        · simp [hb, hP, hr, hn, mapLookup_mapInsert]
        · simp [hb, hP, hr, hn, mapLookup_mapInsert]
    · have hb : ¬ ((trimSpace d).length > 0 || (trimSpace cm).length > 0) = true :=
        fun hx => hP (key.mp hx)
      simp [hb, hP]

theorem collectFields_foldl_cases (fl : List SrcField) (n : String) :
    ∀ m : List (String × Field),
      (mapLookup n (fl.foldl (fun fields field => collectFieldStep field fields) m)
          = mapLookup n m
        ∧ ∀ sf ∈ fl, n ∈ sf.names →
            trimSpace sf.docText = "" ∧ trimSpace sf.commentText = "")
      ∨ (∃ sf, sf ∈ fl ∧ n ∈ sf.names
          ∧ (trimSpace sf.docText ≠ "" ∨ trimSpace sf.commentText ≠ "")
          ∧ mapLookup n (fl.foldl (fun fields field => collectFieldStep field fields) m)
              = some ⟨"", trimSpace sf.docText, trimSpace sf.commentText⟩) := by
  induction fl with
  | nil =>
    intro m
    left
    exact ⟨rfl, by simp⟩
  | cons f rest ih =>
    intro m
    rw [List.foldl_cons]
    rcases ih (collectFieldStep f m) with ⟨hl, hall⟩ | ⟨sf, hsf, hn, hne, hsome⟩
    · rw [mapLookup_collectFieldStep] at hl
      by_cases hcond :
          (trimSpace f.docText ≠ "" ∨ trimSpace f.commentText ≠ "") ∧ n ∈ f.names
      · right
        refine ⟨f, List.mem_cons_self _ _, hcond.2, hcond.1, ?_⟩
        rw [hl, if_pos hcond]
      · left
        refine ⟨by rw [hl, if_neg hcond], ?_⟩
        intro sf hsf hn
        rcases List.mem_cons.mp hsf with heq | hmem
        · subst heq
          by_cases hd : trimSpace sf.docText = ""
          · by_cases hc : trimSpace sf.commentText = ""
            · exact ⟨hd, hc⟩
            · exact absurd ⟨Or.inr hc, hn⟩ hcond
          · exact absurd ⟨Or.inl hd, hn⟩ hcond
        · exact hall sf hmem hn
    · right
      exact ⟨sf, List.mem_cons_of_mem _ hsf, hn, hne, hsome⟩

theorem collectFields_lookup_shape (fl : List SrcField) (n : String) (f : Field)
    (h : mapLookup n (collectFields fl) = some f) :
    ∃ sf, sf ∈ fl ∧ n ∈ sf.names
      ∧ (trimSpace sf.docText ≠ "" ∨ trimSpace sf.commentText ≠ "")
      ∧ f = ⟨"", trimSpace sf.docText, trimSpace sf.commentText⟩ := by
  unfold collectFields at h
  rcases collectFields_foldl_cases fl n [] with ⟨hl, _⟩ | ⟨sf, hsf, hn, hne, hsome⟩
  · rw [hl] at h
    simp [mapLookup] at h
  · rw [hsome] at h
    simp only [Option.some.injEq] at h
    exact ⟨sf, hsf, hn, hne, h.symm⟩

theorem collectFields_isSome_iff (fl : List SrcField) (n : String) :
    (mapLookup n (collectFields fl)).isSome = true ↔
      ∃ sf, sf ∈ fl ∧ n ∈ sf.names
        ∧ (trimSpace sf.docText ≠ "" ∨ trimSpace sf.commentText ≠ "") := by
  unfold collectFields
  constructor
  · intro h
    rcases collectFields_foldl_cases fl n [] with ⟨hl, _⟩ | ⟨sf, hsf, hn, hne, _⟩
    · rw [hl] at h
      simp [mapLookup] at h
    · exact ⟨sf, hsf, hn, hne⟩
  · intro hx
    obtain ⟨sf, hsf, hn, hne⟩ := hx
    rcases collectFields_foldl_cases fl n [] with ⟨_, hall⟩ | ⟨sf2, _, _, _, hsome⟩
    · obtain ⟨hd, hc⟩ := hall sf hsf hn
      rcases hne with hne | hne
      · exact absurd hd hne
      · exact absurd hc hne
    · rw [hsome]
      rfl

/-! Helper lemmas about the type-declaration loop and `FromPath`. -/

theorem addTypes_foldl_mem (conf : config) (types : List DocType) :
    ∀ (acc : List (String × Function) × List (String × Struct))
      (p : String × Struct), p ∈ (types.foldl (addTypesStep conf) acc).2 →
      p ∈ acc.2 ∨ ∃ typ, typ ∈ types ∧ typ.isStruct = true
        ∧ p = (typ.name, mkStruct conf typ) := by
  induction types with
  | nil =>
    intro acc p h
    exact Or.inl h
  | cons t rest ih =>
    intro acc p h
    rw [List.foldl_cons] at h
    rcases ih _ p h with hacc | ⟨typ, htyp, hstr, hp⟩
    · simp only [addTypesStep] at hacc
      by_cases hs : t.isStruct = true
      · rw [if_pos hs] at hacc
        by_cases hf : conf.filterStruct (mkStruct conf t) = true
        · rw [if_pos hf] at hacc
          rcases List.mem_cons.mp hacc with heq | hmem
          · exact Or.inr ⟨t, List.mem_cons_self _ _, hs, heq⟩
          · exact Or.inl (mem_of_mem_eraseKey hmem)
        · rw [if_neg hf] at hacc
          exact Or.inl hacc
      · rw [if_neg hs] at hacc
        exact Or.inl hacc
    · exact Or.inr ⟨typ, List.mem_cons_of_mem _ htyp, hstr, hp⟩

theorem getInfo_error_of_bad_length (infos : List PkgInfo)
    (h : infos.length ≠ 1) : ∃ e, getInfo infos = .error e := by
  rcases infos with _ | ⟨a, _ | ⟨b, rest⟩⟩
  · exact ⟨"no packages", rfl⟩
  · simp at h
  · exact ⟨"multiple packages", rfl⟩

theorem getInfo_ok_shape (infos : List PkgInfo) (info : PkgInfo)
    (h : getInfo infos = .ok info) : infos = [info] ∧ info.errors = [] := by
  rcases infos with _ | ⟨a, _ | ⟨b, rest⟩⟩
  · simp [getInfo] at h
  · by_cases he : a.errors = []
    · rw [getInfo, if_pos he] at h
      simp only [Except.ok.injEq] at h
      subst h
      exact ⟨rfl, he⟩
    · rw [getInfo, if_neg he] at h
      exact Except.noConfusion h
  · simp [getInfo] at h

theorem fromPath_ok_shape (inp : ExtractInput) (opts : List GenOption)
    (pkg : Package) (h : FromPath inp opts = .ok pkg) :
    ∃ info pkgdoc, getInfo inp.loadResult = .ok info
      ∧ mapLookup info.Name inp.parsed = some pkgdoc
      ∧ pkg =
        { ID := info.ID
          Name := info.Name
          Doc := trimSpace pkgdoc.doc
          Functions := (addTypes (buildConfig opts) pkgdoc.types
            (addFuncs (buildConfig opts) pkgdoc.funcs [])).1
          Structs := (addTypes (buildConfig opts) pkgdoc.types
            (addFuncs (buildConfig opts) pkgdoc.funcs [])).2 } := by
  simp only [FromPath] at h
  split at h
  · exact Except.noConfusion h
  · rename_i info heq
    split at h
    · exact Except.noConfusion h
    · split at h
      · exact Except.noConfusion h
      · split at h
        · exact Except.noConfusion h
        · split at h
          · exact Except.noConfusion h
          · rename_i pkgdoc heq3
            simp only [Except.ok.injEq] at h
            exact ⟨info, pkgdoc, heq, heq3, h.symm⟩

/-! Projection equations of `Register`. -/

theorem register_pkgs_eq (st : RegState) (P : Package) :
    (Register st P).pkgs = mapInsert (effectiveID P) P st.pkgs := rfl

theorem register_funcs_eq (st : RegState) (P : Package) :
    (Register st P).funcs =
      registerAll (fun fn => fn.Name) (effectiveID P ++ ".") P.Functions st.funcs := rfl

theorem register_strucsts_eq (st : RegState) (P : Package) :
    (Register st P).strucsts =
      registerAll (fun s => s.Name) (effectiveID P ++ ".") P.Structs st.strucsts := rfl

/-! Claim theorems. -/

/-- Claim C1: `GetFunction` performs a two-phase lookup. An exact hit in
the flattened function map is returned directly; on a miss the identifier
is split at its last dot into a struct identifier and a method name, the
struct is looked up, and the method is returned from its method mapping;
an identifier without a dot, a missing struct, or a missing method all
yield "not found". In the registered test package, the method address
resolves to the method while the bare struct address resolves to
nothing. -/
theorem getFunction_two_phase :
    (∀ (st : RegState) (id : String) (fn : Function),
        mapLookup id st.funcs = some fn → GetFunction st id = some fn) ∧
    (∀ (st : RegState) (id : String), mapLookup id st.funcs = none →
        GetFunction st id = (splitLastDot id).bind
          (fun p => (GetStruct st p.1).bind (fun s => mapLookup p.2 s.Methods))) ∧
    (∀ (s h t : String), splitLastDot s = some (h, t) →
        s.data = h.data ++ '.' :: t.data ∧ '.' ∉ t.data) ∧
    (∀ s : String, splitLastDot s = none ↔ '.' ∉ s.data) ∧
    GetFunction exState "example.com/testpkg.TestStruct.Method1" = some method1 ∧
    GetFunction exState "example.com/testpkg.TestStruct" = none := by
  exact ⟨getFunction_hit, getFunction_miss, splitLastDot_eq_some,
    splitLastDot_eq_none, rfl, rfl⟩

/-- Witness for C1 at concrete inputs: the exact-match phase returns the
registered test function, and the last-dot split of the method address
separates the struct identifier from the method name. -/
theorem getFunction_two_phase_witness :
    GetFunction exState "example.com/testpkg.TestFunc" = some testFunc ∧
    ("example.com/testpkg.TestStruct.Method1" : String).data =
      ("example.com/testpkg.TestStruct" : String).data
        ++ '.' :: ("Method1" : String).data ∧
    '.' ∉ ("Method1" : String).data :=
  ⟨getFunction_two_phase.1 exState "example.com/testpkg.TestFunc" testFunc (by rfl),
   (getFunction_two_phase.2.2.1 "example.com/testpkg.TestStruct.Method1"
      "example.com/testpkg.TestStruct" "Method1" (by rfl)).1,
   (getFunction_two_phase.2.2.1 "example.com/testpkg.TestStruct.Method1"
      "example.com/testpkg.TestStruct" "Method1" (by rfl)).2⟩

/-- Counterexample to claim C2: after re-registering the identifier
"example.com/p" with a package containing no functions, the flattened
function map still holds the entry derived from the first registration,
although the currently registered package contains no function at all. -/
theorem register_stale_flattened_counterexample :
    GetPackage (Register (Register emptyState pkgP1) pkgP2) "example.com/p"
        = some pkgP2 ∧
    pkgP2.Functions = [] ∧
    mapLookup "example.com/p.Foo"
        (Register (Register emptyState pkgP1) pkgP2).funcs = some fooFn :=
  ⟨rfl, rfl, rfl⟩

/-- Amended claim C2: `Register` overwrites the package entry under the
effective identifier and (re)inserts every function and struct of the new
package into the flattened maps under the prefixed keys, leaving every
flattened key outside that set unchanged; stale entries of an earlier
registration therefore survive when the new package does not produce the
same key. -/
theorem register_flattened_update :
    ∀ (st : RegState) (P : Package),
      GetPackage (Register st P) (effectiveID P) = some P ∧
      (∀ fn, (P.Functions.map (fun p => p.2.Name)).Nodup →
          fn ∈ P.Functions.map Prod.snd →
          mapLookup (effectiveID P ++ "." ++ fn.Name) (Register st P).funcs
            = some fn) ∧
      (∀ k, (∀ fn ∈ P.Functions.map Prod.snd, k ≠ effectiveID P ++ "." ++ fn.Name) →
          mapLookup k (Register st P).funcs = mapLookup k st.funcs) ∧
      (∀ s, (P.Structs.map (fun p => p.2.Name)).Nodup →
          s ∈ P.Structs.map Prod.snd →
          mapLookup (effectiveID P ++ "." ++ s.Name) (Register st P).strucsts
            = some s) ∧
      (∀ k, (∀ s ∈ P.Structs.map Prod.snd, k ≠ effectiveID P ++ "." ++ s.Name) →
          mapLookup k (Register st P).strucsts = mapLookup k st.strucsts) := by
  intro st P
  refine ⟨?_, ?_, ?_, ?_, ?_⟩
  · unfold GetPackage
    rw [register_pkgs_eq, mapLookup_mapInsert, if_pos rfl]
  · intro fn hnd hmem
    rw [register_funcs_eq]
    exact registerAll_lookup _ _ _ _ _ hnd hmem
  · intro k hk
    rw [register_funcs_eq]
    exact registerAll_frame _ _ _ _ _
      (fun p hp => hk p.2 (List.mem_map_of_mem Prod.snd hp))
  · intro s hnd hmem
    rw [register_strucsts_eq]
    exact registerAll_lookup _ _ _ _ _ hnd hmem
  · intro k hk
    rw [register_strucsts_eq]
    exact registerAll_frame _ _ _ _ _
      (fun p hp => hk p.2 (List.mem_map_of_mem Prod.snd hp))

/-- Witness for the amended claim C2 at the concrete test package. -/
theorem register_flattened_update_witness :
    mapLookup "example.com/testpkg.TestFunc"
        (Register emptyState testPkg).funcs = some testFunc ∧
    mapLookup "example.com/testpkg.TestStruct"
        (Register emptyState testPkg).strucsts = some testStruct :=
  ⟨(register_flattened_update emptyState testPkg).2.1 testFunc
      (by decide) (by decide),
   (register_flattened_update emptyState testPkg).2.2.2.1 testStruct
      (by decide) (by decide)⟩

/-- Claim C3: registering a package with no name collisions and then
looking up its effective identifier returns the package unchanged. -/
theorem register_getPackage_roundtrip :
    ∀ (st : RegState) (P : Package), NoCollisions P →
      GetPackage (Register st P) (effectiveID P) = some P := by
  intro st P _
  unfold GetPackage
  rw [register_pkgs_eq, mapLookup_mapInsert, if_pos rfl]

/-- Witness for C3 at the concrete test package. -/
theorem register_getPackage_roundtrip_witness :
    NoCollisions testPkg ∧
    GetPackage (Register emptyState testPkg) (effectiveID testPkg) = some testPkg :=
  ⟨⟨by decide, by decide⟩,
   register_getPackage_roundtrip emptyState testPkg ⟨by decide, by decide⟩⟩

/-- Claim C4: a package whose short name is "main" is registered under
the fixed effective identifier "main": it and its functions and structs
become retrievable under the "main" prefix, its own identifier is not
bound by the registration, and a package with any other short name keeps
its own identifier. -/
theorem register_main_aliasing :
    ∀ (st : RegState) (P : Package),
      (P.Name = "main" → GetPackage (Register st P) "main" = some P) ∧
      (P.Name = "main" → P.ID ≠ "main" → mapLookup P.ID st.pkgs = none →
          GetPackage (Register st P) P.ID = none) ∧
      (P.Name ≠ "main" → GetPackage (Register st P) P.ID = some P) ∧
      (P.Name = "main" → (P.Functions.map (fun p => p.2.Name)).Nodup →
          ∀ fn ∈ P.Functions.map Prod.snd,
            GetFunction (Register st P) ("main." ++ fn.Name) = some fn) ∧
      (P.Name = "main" → (P.Structs.map (fun p => p.2.Name)).Nodup →
          ∀ s ∈ P.Structs.map Prod.snd,
            GetStruct (Register st P) ("main." ++ s.Name) = some s) := by
  intro st P
  have heffm : P.Name = "main" → effectiveID P = "main" := by
    intro hm
    simp [effectiveID, hm]
  refine ⟨?_, ?_, ?_, ?_, ?_⟩
  · intro hm
    unfold GetPackage
    rw [register_pkgs_eq, mapLookup_mapInsert, heffm hm, if_pos rfl]
  · intro hm hid hnone
    unfold GetPackage
    rw [register_pkgs_eq, mapLookup_mapInsert, heffm hm, if_neg hid]
    exact hnone
  · intro hm
    unfold GetPackage
    rw [register_pkgs_eq, mapLookup_mapInsert]
    have : effectiveID P = P.ID := by simp [effectiveID, hm]
    rw [this, if_pos rfl]
  · intro hm hnd fn hmem
    apply getFunction_hit
    rw [register_funcs_eq, heffm hm]
    exact registerAll_lookup _ _ _ _ _ hnd hmem
  · intro hm hnd s hmem
    unfold GetStruct
    rw [register_strucsts_eq, heffm hm]
    exact registerAll_lookup _ _ _ _ _ hnd hmem

/-- Witness for C4 at the concrete main package of the test suite. -/
theorem register_main_aliasing_witness :
    GetPackage (Register emptyState mainPkg) "main" = some mainPkg ∧
    GetPackage (Register emptyState mainPkg) "example.com/main" = none ∧
    GetFunction (Register emptyState mainPkg) "main.MainFunc" = some mainFunc :=
  ⟨(register_main_aliasing emptyState mainPkg).1 (by rfl),
   (register_main_aliasing emptyState mainPkg).2.1 (by rfl) (by decide) (by rfl),
   (register_main_aliasing emptyState mainPkg).2.2.2.1 (by rfl) (by decide)
      mainFunc (by decide)⟩

/-- Counterexample to claim C5, in the reference-semantics model of Go
map values: after the package is registered and looked up, a caller-side
write into the Functions map of the returned value is visible through the
registry, because the returned record shares the map reference with the
stored entry. The originally registered data did not contain the key
"Bar"; after the caller mutation a subsequent identical lookup exposes
it. -/
theorem lookup_copy_counterexample :
    GetPackageRef refSt "example.com/p" = some refPkg ∧
    mapLookup "Bar" (derefFuncs refSt refPkg.FunctionsRef) = none ∧
    mapLookup "Bar"
        (derefFuncs (storeFuncKey refSt refPkg.FunctionsRef "Bar" barFn)
          refPkg.FunctionsRef) = some barFn ∧
    GetPackageRef (storeFuncKey refSt refPkg.FunctionsRef "Bar" barFn)
        "example.com/p" = some refPkg :=
  ⟨rfl, rfl, rfl, rfl⟩

/-- Amended claim C5: lookups return only a shallow copy. The top-level
record returned by `GetPackage` is a copy, so the registry entry itself
keeps its fields, but the nested function map is shared by reference: a
caller-side write through the returned handle is observed by every
subsequent lookup of the registry. -/
theorem lookup_shallow_copy :
    ∀ (st : RefState) (id : String) (gp : GoPackage) (k : String)
      (fn : Function), GetPackageRef st id = some gp →
      GetPackageRef (storeFuncKey st gp.FunctionsRef k fn) id = some gp ∧
      mapLookup k (derefFuncs (storeFuncKey st gp.FunctionsRef k fn)
        gp.FunctionsRef) = some fn := by
  intro st id gp k fn h
  constructor
  · simpa [GetPackageRef, storeFuncKey] using h
  · simp [derefFuncs, storeFuncKey, mapLookup_mapInsert]

/-- Witness for the amended claim C5 at the concrete reference state. -/
theorem lookup_shallow_copy_witness :
    GetPackageRef (storeFuncKey refSt refPkg.FunctionsRef "Baz" barFn)
        "example.com/p" = some refPkg ∧
    mapLookup "Baz" (derefFuncs (storeFuncKey refSt refPkg.FunctionsRef
        "Baz" barFn) refPkg.FunctionsRef) = some barFn :=
  lookup_shallow_copy refSt "example.com/p" refPkg "Baz" barFn (by rfl)

/-- Counterexample to claim C6: the `WithDoc` predicate accepts a
function whose doc string is a single space, although the trimmed doc
text is empty, because the source compares the raw doc string against the
empty string without trimming. -/
theorem withDoc_whitespace_counterexample :
    (WithDoc emptyConfig).filterFunc wsFn = true ∧ trimSpace wsFn.Doc = "" :=
  ⟨rfl, rfl⟩

/-- Amended claim C6: the `WithDoc` filter accepts an entity exactly when
its raw, untrimmed doc string is non-empty; a whitespace-only doc string
is accepted. -/
theorem withDoc_nonempty_doc :
    ∀ (fn : Function) (st : Struct),
      ((WithDoc emptyConfig).filterFunc fn = true ↔ fn.Doc ≠ "") ∧
      ((WithDoc emptyConfig).filterStruct st = true ↔ st.Doc ≠ "") := by
  intro fn st
  constructor <;>
    simp [WithDoc, emptyConfig, config.filterFunc, config.filterStruct,
      runFilters]

/-- Claim C7: an entity passes the filter chain exactly when every
predicate of the corresponding chain accepts it, and the empty chain
accepts everything. -/
theorem filter_chain_and_semantics :
    ∀ (c : config) (fn : Function) (st : Struct),
      (c.filterFunc fn = true ↔ ∀ f ∈ c.funcFilter, f fn = true) ∧
      (c.filterStruct st = true ↔ ∀ f ∈ c.structFilter, f st = true) ∧
      emptyConfig.filterFunc fn = true ∧
      emptyConfig.filterStruct st = true := by
  intro c fn st
  exact ⟨runFilters_eq_true _ _, runFilters_eq_true _ _, rfl, rfl⟩

/-- Claim C8: a source field appears in the extracted field mapping if
and only if at least one of its trimmed doc comment and trimmed trailing
comment is non-empty; when present, the stored `Field` carries exactly
the two trimmed texts, so the slot whose source text trims to nothing is
stored as the empty string. Every struct of a `FromPath` result obtains
its field mapping from this collection loop. -/
theorem field_collection_spec :
    (∀ (fl : List SrcField) (n : String) (f : Field),
        mapLookup n (collectFields fl) = some f →
        ∃ sf, sf ∈ fl ∧ n ∈ sf.names
          ∧ (trimSpace sf.docText ≠ "" ∨ trimSpace sf.commentText ≠ "")
          ∧ f = ⟨"", trimSpace sf.docText, trimSpace sf.commentText⟩) ∧
    (∀ (fl : List SrcField) (n : String),
        (mapLookup n (collectFields fl)).isSome = true ↔
          ∃ sf, sf ∈ fl ∧ n ∈ sf.names
            ∧ (trimSpace sf.docText ≠ "" ∨ trimSpace sf.commentText ≠ "")) ∧
    (∀ (inp : ExtractInput) (opts : List GenOption) (pkg : Package)
        (nm2 : String) (st : Struct),
        FromPath inp opts = .ok pkg → mapLookup nm2 pkg.Structs = some st →
        ∃ info pkgdoc typ, getInfo inp.loadResult = .ok info
          ∧ mapLookup info.Name inp.parsed = some pkgdoc
          ∧ typ ∈ pkgdoc.types ∧ typ.isStruct = true
          ∧ st = mkStruct (buildConfig opts) typ
          ∧ st.Fields = collectFields typ.fields) := by
  refine ⟨collectFields_lookup_shape, collectFields_isSome_iff, ?_⟩
  intro inp opts pkg nm2 st hok hst
  obtain ⟨info, pkgdoc, hg, hl, hpkg⟩ := fromPath_ok_shape inp opts pkg hok
  subst hpkg
  have hmem := mem_of_mapLookup_eq_some hst
  rcases addTypes_foldl_mem (buildConfig opts) pkgdoc.types _ _ hmem with
    hacc | ⟨typ, htyp, hstr, hp⟩
  · simp at hacc
  · have hst2 : st = mkStruct (buildConfig opts) typ := congrArg Prod.snd hp
    refine ⟨info, pkgdoc, typ, hg, hl, htyp, hstr, hst2, ?_⟩
    rw [hst2]
    rfl

/-- Witness for C8: the concrete documented field is collected with its
comment slot empty, and the concrete extractor run produces its struct
through the field-collection loop. -/
theorem field_collection_spec_witness :
    (∃ sf, sf ∈ [exSrcField] ∧ "Field1" ∈ sf.names
      ∧ (trimSpace sf.docText ≠ "" ∨ trimSpace sf.commentText ≠ "")
      ∧ (⟨"", "Field1 documentation", ""⟩ : Field)
          = ⟨"", trimSpace sf.docText, trimSpace sf.commentText⟩) ∧
    (∃ info pkgdoc typ, getInfo exInput.loadResult = .ok info
      ∧ mapLookup info.Name exInput.parsed = some pkgdoc
      ∧ typ ∈ pkgdoc.types ∧ typ.isStruct = true
      ∧ exOutStruct = mkStruct (buildConfig []) typ
      ∧ exOutStruct.Fields = collectFields typ.fields) :=
  ⟨field_collection_spec.1 [exSrcField] "Field1"
      ⟨"", "Field1 documentation", ""⟩ (by rfl),
   field_collection_spec.2.2 exInput [] exOutPkg "TestStruct" exOutStruct
      (by rfl) (by rfl)⟩

/-- Claim C9: when the location resolves to zero or to more than one
source package, at either resolution layer, `FromPath` returns an error
and no package value. -/
theorem fromPath_resolution_error :
    ∀ (inp : ExtractInput) (opts : List GenOption),
      (inp.loadResult.length = 0 ∨ 1 < inp.loadResult.length
        ∨ inp.parsed.length = 0 ∨ 1 < inp.parsed.length) →
      ∃ e, FromPath inp opts = .error e := by
  intro inp opts hbad
  cases hg : getInfo inp.loadResult with
  | error e =>
    exact ⟨e, by simp [FromPath, hg]⟩
  | ok info =>
    obtain ⟨hload, _⟩ := getInfo_ok_shape _ _ hg
    have hlen : inp.loadResult.length = 1 := by rw [hload]; rfl
    have hparsed : inp.parsed.length = 0 ∨ 1 < inp.parsed.length := by
      rcases hbad with h | h | h | h
      · omega
      · omega
      · exact Or.inl h
      · exact Or.inr h
    cases hp : inp.parseError with
    | some e =>
      exact ⟨"parse package: " ++ e, by simp [FromPath, hg, hp]⟩
    | none =>
      rcases hparsed with h0 | h1
      · exact ⟨"no packages", by simp [FromPath, hg, hp, h0]⟩
      · have h0 : ¬ inp.parsed.length = 0 := by omega
        exact ⟨"multiple packages", by simp [FromPath, hg, hp, h0, h1]⟩

/-- Witness for C9: an input resolving to zero packages makes `FromPath`
fail. -/
theorem fromPath_resolution_error_witness :
    ∃ e, FromPath ⟨[], none, []⟩ [] = Except.error e :=
  fromPath_resolution_error ⟨[], none, []⟩ [] (Or.inl rfl)

/-- Claim C10: every `Field` value stored in a field mapping of a struct
of a `FromPath` result has an empty Name slot; the field name lives only
in the mapping key. -/
theorem extracted_field_name_empty :
    ∀ (inp : ExtractInput) (opts : List GenOption) (pkg : Package)
      (nm2 : String) (st : Struct) (n : String) (f : Field),
      FromPath inp opts = .ok pkg → mapLookup nm2 pkg.Structs = some st →
      mapLookup n st.Fields = some f → f.Name = "" := by
  intro inp opts pkg nm2 st n f hok hst hf
  obtain ⟨info, pkgdoc, hg, hl, hpkg⟩ := fromPath_ok_shape inp opts pkg hok
  subst hpkg
  have hmem := mem_of_mapLookup_eq_some hst
  rcases addTypes_foldl_mem (buildConfig opts) pkgdoc.types _ _ hmem with
    hacc | ⟨typ, htyp, hstr, hp⟩
  · simp at hacc
  · have hst2 : st = mkStruct (buildConfig opts) typ := congrArg Prod.snd hp
    rw [hst2] at hf
    obtain ⟨sf, _, _, _, hfeq⟩ := collectFields_lookup_shape typ.fields n f hf
    rw [hfeq]

/-- Witness for C10 at the concrete extractor run. -/
theorem extracted_field_name_empty_witness :
    (⟨"", "Field1 documentation", "Field1 comment"⟩ : Field).Name = "" :=
  extracted_field_name_empty exInput [] exOutPkg "TestStruct" exOutStruct
    "Field1" ⟨"", "Field1 documentation", "Field1 comment"⟩
    (by rfl) (by rfl) (by rfl)

end Codoc
